import Mathlib

/-!
Shallow embedding of the idp470_pipeline fixed-width contract pipeline:
the data model (models.py), the picture evaluators (cobol_layout_parser.py
and pli_layout_parser.py), the fixed-width decoder and structural validator
(parsing_engine.py), and the contract extraction entry points.

Python strings are modelled as List Char, Python Decimal values as Rat,
raised exceptions as Option/Except, and mutable accumulation as explicit
state passing.  Python builtins (int, Decimal) are modelled on the input
grammar the pipeline can feed them; the model returns none exactly where
the builtin raises on such inputs.
-/

namespace IDP470

/-- True when the character is an ASCII decimal digit. -/
def is_digit_char (ch : Char) : Bool := '0' ≤ ch ∧ ch ≤ '9'

/-- Numeric value of a digit string, most significant digit first. -/
def digits_val (l : List Char) : Nat :=
  l.foldl (fun a ch => a * 10 + (ch.toNat - '0'.toNat)) 0

/-- True for the whitespace characters stripped by the Python str.rstrip default. -/
def is_py_space (ch : Char) : Bool := ch = ' ' ∨ ch = '\t' ∨ ch = '\n' ∨ ch = '\r'

/-- Python value.rstrip with no arguments: drop trailing whitespace. -/
def rstrip (l : List Char) : List Char :=
  (l.reverse.dropWhile is_py_space).reverse

/-- Python raw_line.rstrip applied to carriage return and newline only. -/
def strip_newline (l : List Char) : List Char :=
  (l.reverse.dropWhile (fun ch => ch = '\r' ∨ ch = '\n')).reverse

/-- parsing_engine._normalize_numeric: remove spaces, map commas to dots. -/
def normalize_numeric (l : List Char) : List Char :=
  (l.filter (fun ch => ch ≠ ' ')).map (fun ch => if ch = ',' then '.' else ch)

/-- Python line.take-style slice line.drop start |>.take len, for line[start : start+len]. -/
def py_slice (l : List Char) (start len : Nat) : List Char :=
  (l.drop start).take len

/-- Fuel-indexed loop of collapse_underscores; each step shortens the list, so
any fuel above the list length is enough and the zero-fuel case is never hit
from the wrapper below. -/
def collapse_underscores_fuel : Nat → List Char → List Char
  | 0, _ => []
  | _ + 1, [] => []
  | _ + 1, [ch] => [ch]
  | fuel + 1, a :: b :: rest =>
    if a = '_' ∧ b = '_' then collapse_underscores_fuel fuel ('_' :: rest)
    else a :: collapse_underscores_fuel fuel (b :: rest)

/-- Collapse runs of underscores to one underscore (re.sub of one or more underscores). -/
def collapse_underscores (l : List Char) : List Char :=
  collapse_underscores_fuel (l.length + 1) l

/-- cobol_layout_parser._normalize_identifier: uppercase, dashes to underscores,
any other non-alphanumeric to underscore, collapse runs, strip ends, FIELD fallback. -/
def normalize_identifier (s : String) : String :=
  let upper := s.data.map Char.toUpper
  let dashMapped := upper.map (fun ch => if ch = '-' then '_' else ch)
  let cleaned := dashMapped.map (fun ch =>
    if ('A' ≤ ch ∧ ch ≤ 'Z') ∨ ('0' ≤ ch ∧ ch ≤ '9') ∨ ch = '_' then ch else '_')
  let collapsed := collapse_underscores cleaned
  let stripped :=
    ((collapsed.dropWhile (fun ch => ch = '_')).reverse.dropWhile (fun ch => ch = '_')).reverse
  if stripped.isEmpty then "FIELD" else String.mk stripped

/-- Suffix search loop of cobol_layout_parser._append_field; the fuel bound is
large enough that the loop always finds a candidate outside the used set. -/
def fresh_name_loop (base : String) (used : List String) : Nat → Nat → String
  | 0, suffix => base ++ "_" ++ toString suffix
  | fuel + 1, suffix =>
    let candidate := base ++ "_" ++ toString suffix
    if used.contains candidate then fresh_name_loop base used fuel (suffix + 1)
    else candidate

/-- Collision resolution of cobol_layout_parser._append_field: keep the base name
unless taken, else append numeric suffixes starting from 2. -/
def fresh_name (base : String) (used : List String) : String :=
  if used.contains base then fresh_name_loop base used (used.length + 1) 2 else base

/-- models.FieldType. -/
inductive FieldType where
  | string
  | integer
  | decimal
  | date
  | sign
deriving DecidableEq, Repr

/-- models.StructureScope. -/
inductive StructureScope where
  | file
  | invoice
  | line
deriving DecidableEq, Repr

/-- models.FieldSpec.  Pydantic field constraints are checked by the validating
constructors below where a claim depends on them. -/
structure FieldSpec where
  name : String
  start : Nat
  length : Nat
  type : FieldType
  decimals : Option Nat
  description : Option String
deriving DecidableEq, Repr

/-- models.FieldSpec.end (end is a Lean keyword, hence endPos). -/
def FieldSpec.endPos (f : FieldSpec) : Nat := f.start + f.length - 1

/-- models.SelectorSpec. -/
structure SelectorSpec where
  start : Nat
  length : Nat
  value : String
deriving DecidableEq, Repr

/-- models.RecordSpec. -/
structure RecordSpec where
  name : String
  selector : SelectorSpec
  fields : List FieldSpec
deriving DecidableEq, Repr

/-- models.RecordSpec.sum_of_lengths. -/
def RecordSpec.sum_of_lengths (r : RecordSpec) : Nat :=
  (r.fields.map (fun f => f.length)).sum

/-- models.RecordSpec.max_end: maximum field end position (fields are nonempty
in validated records; the fold base 0 matches the Python max over that case). -/
def RecordSpec.max_end (r : RecordSpec) : Nat :=
  (r.fields.map FieldSpec.endPos).foldl Nat.max 0

/-- models.StructureRule. -/
structure StructureRule where
  label : String
  record_name : String
  scope : StructureScope
  min_occurs : Nat
  max_occurs : Option Nat
  order_index : Nat
  description : Option String
deriving DecidableEq, Repr

/-- models.ContractSpec.  The generated_at_utc timestamp is not modelled. -/
structure ContractSpec where
  schema_version : String
  source_program : String
  line_length : Nat
  strict_length_validation : Bool
  strict_structure_validation : Bool
  structure_source : Option String
  structure_rules : List StructureRule
  record_types : List RecordSpec
deriving DecidableEq, Repr

/-- models.ContractSpec.validate_record_ranges as an early-exit boolean check:
every record must satisfy max_end below line_length, and in strict mode the
sum of field lengths must equal line_length exactly. -/
def validate_record_ranges (strict : Bool) (lineLength : Nat) : List RecordSpec → Bool
  | [] => true
  | r :: rest =>
    if lineLength < r.max_end then false
    else if strict && !(r.sum_of_lengths == lineLength) then false
    else validate_record_ranges strict lineLength rest

/-- Duplicate detection used by the unique-name validators (count above one). -/
def has_duplicate_names (names : List String) : Bool :=
  names.any (fun n => 1 < (names.filter (fun m => m == n)).length)

/-- Validating construction of a ContractSpec, modelling the pydantic field
constraints and validators of models.ContractSpec; none models the raised
ValidationError, so no partial contract value exists on failure. -/
def mkContractSpec (sourceProgram : String) (lineLength : Nat)
    (strictLen strictStruct : Bool) (structureSource : Option String)
    (rules : List StructureRule) (recordTypes : List RecordSpec) :
    Option ContractSpec :=
  if sourceProgram.isEmpty then none
  else if lineLength < 1 then none
  else if recordTypes.isEmpty then none
  else if has_duplicate_names (recordTypes.map (fun r => r.name)) then none
  else if !(validate_record_ranges strictLen lineLength recordTypes) then none
  else some {
    schema_version := "1.0",
    source_program := sourceProgram,
    line_length := lineLength,
    strict_length_validation := strictLen,
    strict_structure_validation := strictStruct,
    structure_source := structureSource,
    structure_rules := rules,
    record_types := recordTypes }

/-- parsing_engine.FixedWidthParser._validate_contract: the parser re-runs the
same range checks on the contract it receives. -/
def validate_contract (c : ContractSpec) : Bool :=
  validate_record_ranges c.strict_length_validation c.line_length c.record_types

/-- Digit-string parse used to model the Python int and Decimal constructors. -/
def parse_nat_digits (l : List Char) : Option Nat :=
  if l.isEmpty then none
  else if l.all is_digit_char then some (digits_val l) else none

/-- Models the Python int constructor on sign-and-digits strings; other inputs
raise ValueError, modelled as none. -/
def parse_int_string (l : List Char) : Option Int :=
  match l with
  | '+' :: rest => (parse_nat_digits rest).map (fun n => (n : Int))
  | '-' :: rest => (parse_nat_digits rest).map (fun n => -(n : Int))
  | _ => (parse_nat_digits l).map (fun n => (n : Int))

/-- Unsigned part of the Decimal grammar: digits with at most one point. -/
def parse_unsigned_decimal (l : List Char) : Option ℚ :=
  let intPart := l.takeWhile (fun ch => ch ≠ '.')
  let rest := l.drop intPart.length
  match rest with
  | [] => (parse_nat_digits intPart).map (fun n => (n : ℚ))
  | _ :: frac =>
    if frac.contains '.' then none
    else if intPart.isEmpty ∧ frac.isEmpty then none
    else if intPart.all is_digit_char ∧ frac.all is_digit_char then
      some ((digits_val intPart : ℚ) + (digits_val frac : ℚ) / (10 : ℚ) ^ frac.length)
    else none

/-- Models the Python Decimal constructor on the sign-digits-point grammar that
normalized fixed-width numerics produce; other inputs raise InvalidOperation,
modelled as none.  Values are exact rationals. -/
def parse_decimal_string (l : List Char) : Option ℚ :=
  match l with
  | '+' :: rest => parse_unsigned_decimal rest
  | '-' :: rest => (parse_unsigned_decimal rest).map (fun q => -q)
  | _ => parse_unsigned_decimal l

/-- Decoded field value: pass-through text, integer, exact decimal, or the null
produced by an empty normalized numeric. -/
inductive Value where
  | vstr (s : List Char)
  | vint (n : Int)
  | vdec (q : ℚ)
  | vnull
deriving DecidableEq, Repr

/-- parsing_engine._coerce_value.  String-like types pass through right-trimmed;
numeric types normalize first, an empty normalized value is null, a failed
numeric parse degrades to the trimmed string, and a decimal with no literal
point is divided by ten to the power decimals. -/
def coerce_value (raw : List Char) (f : FieldSpec) : Value :=
  let value := rstrip raw
  match f.type with
  | .string => .vstr value
  | .date => .vstr value
  | .sign => .vstr value
  | .integer =>
    let normalized := normalize_numeric value
    if normalized.isEmpty then .vnull
    else
      match parse_int_string normalized with
      | some n => .vint n
      | none => .vstr value
  | .decimal =>
    let normalized := normalize_numeric value
    if normalized.isEmpty then .vnull
    else
      match parse_decimal_string normalized with
      | some q =>
        if normalized.contains '.' then .vdec q
        else .vdec (q / (10 : ℚ) ^ (f.decimals.getD 0))
      | none => .vstr value

/-- The two ParsingError raise sites of FixedWidthParser.parse_line, tagged with
the data interpolated into the Python message strings. -/
inductive ParsingErrorKind where
  | lengthMismatch (lineNumber actual expected : Nat)
  | unknownRecordType (lineNumber : Nat)
deriving DecidableEq, Repr

/-- One decoded line: the dict with reserved keys record_type and line_number
plus one entry per field of the matched record. -/
structure DecodedRecord where
  record_type : String
  line_number : Nat
  values : List (String × Value)
deriving DecidableEq, Repr

/-- FixedWidthParser._record_for_line: first record whose selector bytes match,
with a fallback to the sole record type when exactly one exists. -/
def record_for_line (c : ContractSpec) (line : List Char) : Option RecordSpec :=
  match c.record_types.find? (fun r =>
    py_slice line (r.selector.start - 1) r.selector.length == r.selector.value.data) with
  | some r => some r
  | none => if c.record_types.length == 1 then c.record_types.head? else none

/-- Field extraction of FixedWidthParser.parse_line on the effective line. -/
def decode_fields (line : List Char) (record : RecordSpec) (lineNumber : Nat) : DecodedRecord :=
  { record_type := record.name,
    line_number := lineNumber,
    values := record.fields.map (fun f =>
      (f.name, coerce_value (py_slice line (f.start - 1) f.length) f)) }

/-- Record selection plus field extraction; the unknown-record-type error is the
second raise site of parse_line. -/
def decode_with_record (c : ContractSpec) (line : List Char) (n : Nat) :
    Except ParsingErrorKind DecodedRecord :=
  match record_for_line c line with
  | none => .error (.unknownRecordType n)
  | some r => .ok (decode_fields line r n)

/-- Non-strict length adjustment of parse_line: right-pad a short line with
spaces, truncate a long line to the contract length. -/
def effective_line (c : ContractSpec) (line : List Char) : List Char :=
  if line.length < c.line_length then
    line ++ List.replicate (c.line_length - line.length) ' '
  else line.take c.line_length

/-- FixedWidthParser.parse_line. -/
def parse_line (c : ContractSpec) (line : List Char) (n : Nat) :
    Except ParsingErrorKind DecodedRecord :=
  if line.length = c.line_length then decode_with_record c line n
  else if c.strict_length_validation then
    .error (.lengthMismatch n line.length c.line_length)
  else decode_with_record c (effective_line c line) n

/-- The message kinds appended to the diagnostics list, tagged with the data
interpolated into the Python message strings. -/
inductive IssueMsg where
  | decodeIssue (e : ParsingErrorKind)
  | noRecords
  | occurrenceMin (label : String) (minOccurs found : Nat)
  | occurrenceMax (label : String) (maxOccurs found : Nat)
  | firstNotFic
  | beforeFirstEnt (recordType : String)
  | noInvoiceBlock
  | orderAroundLig
  | refWithoutLig
  | lecWithoutLig
  | orderViolation (recordType : String)
deriving DecidableEq, Repr

/-- parsing_engine.ParseIssue. -/
structure ParseIssue where
  line_number : Nat
  message : IssueMsg
  raw_line : List Char
deriving DecidableEq, Repr

/-- FixedWidthParser._structure_rule: first rule with the given label. -/
def structure_rule_for (c : ContractSpec) (label : String) : Option StructureRule :=
  c.structure_rules.find? (fun r => r.label == label)

/-- FixedWidthParser._check_occurrence: emit an under-occurrence issue, then an
over-occurrence issue, for the labelled rule if one exists. -/
def check_occurrence (c : ContractSpec) (label : String) (count lineNumber : Nat) :
    List ParseIssue :=
  match structure_rule_for c label with
  | none => []
  | some rule =>
    (if count < rule.min_occurs then
      [⟨lineNumber, .occurrenceMin label rule.min_occurs count, []⟩] else []) ++
    (match rule.max_occurs with
     | none => []
     | some mx => if mx < count then [⟨lineNumber, .occurrenceMax label mx count, []⟩] else [])

/-- The order_by_label table of FixedWidthParser._validate_structure. -/
def order_by_label (label : String) : Nat :=
  if label == "ENT" then 2
  else if label == "ECH" then 3
  else if label == "COM" then 4
  else if label == "REF(E)" then 5
  else if label == "ADR" then 6
  else if label == "AD2" then 7
  else if label == "LIG" then 8
  else if label == "REF(L)" then 9
  else if label == "LEC" then 10
  else if label == "PIE" then 11
  else 0

/-- Per-detail-line segment accumulator (the current_line dict). -/
structure LineSeg where
  line_number : Nat
  ref : Nat
  lec : Nat
deriving DecidableEq, Repr

/-- Mutable state of the per-block loop in _validate_structure. -/
structure BlockState where
  header_ref_count : Nat
  line_segments : List LineSeg
  current_line : Option LineSeg
  seen_lig : Bool
  last_order : Nat
  issues : List ParseIssue
deriving DecidableEq, Repr

/-- One iteration of the per-block record loop of _validate_structure. -/
def process_block_record (st : BlockState) (r : DecodedRecord) : BlockState :=
  let rt := r.record_type
  let n := r.line_number
  if rt == "LIG" then
    let st1 := { st with seen_lig := true }
    let st2 :=
      match st1.current_line with
      | some seg => { st1 with line_segments := st1.line_segments ++ [seg] }
      | none => st1
    let st3 := { st2 with current_line := some ⟨n, 0, 0⟩ }
    let currentOrder := order_by_label "LIG"
    let st4 :=
      if st3.last_order ≠ order_by_label "LIG" ∧ st3.last_order ≠ order_by_label "REF(L)" ∧
          st3.last_order ≠ order_by_label "LEC" then
        if currentOrder < st3.last_order then
          { st3 with issues := st3.issues ++ [⟨n, .orderAroundLig, []⟩] }
        else st3
      else st3
    { st4 with last_order := currentOrder }
  else
    let step : Option (BlockState × Nat) :=
      if rt == "REF" then
        if st.seen_lig then
          match st.current_line with
          | none =>
            some ({ st with issues := st.issues ++ [⟨n, .refWithoutLig, []⟩] },
              order_by_label "REF(L)")
          | some seg =>
            some ({ st with current_line := some { seg with ref := seg.ref + 1 } },
              order_by_label "REF(L)")
        else some ({ st with header_ref_count := st.header_ref_count + 1 }, order_by_label "REF(E)")
      else if rt == "LEC" then
        match st.current_line with
        | none =>
          some ({ st with issues := st.issues ++ [⟨n, .lecWithoutLig, []⟩] }, order_by_label "LEC")
        | some seg =>
          some ({ st with current_line := some { seg with lec := seg.lec + 1 } },
            order_by_label "LEC")
      else if rt == "ECH" then some (st, order_by_label "ECH")
      else if rt == "COM" then some (st, order_by_label "COM")
      else if rt == "ADR" then some (st, order_by_label "ADR")
      else if rt == "AD2" then some (st, order_by_label "AD2")
      else if rt == "PIE" then some (st, order_by_label "PIE")
      else none
    match step with
    | none => st
    | some (st5, currentOrder) =>
      if currentOrder < st5.last_order then
        { st5 with issues := st5.issues ++ [⟨n, .orderViolation rt, []⟩] }
      else { st5 with last_order := currentOrder }

/-- Counter lookup over a block (counts.get of record type). -/
def count_type (block : List DecodedRecord) (t : String) : Nat :=
  (block.filter (fun r => r.record_type == t)).length

/-- Per-block section of _validate_structure: run the record loop, flush the
open detail segment, then the occurrence checks in source order. -/
def process_block (c : ContractSpec) (block : List DecodedRecord) : List ParseIssue :=
  let entLine := (block.headD ⟨"", 0, []⟩).line_number
  let st0 : BlockState := ⟨0, [], none, false, order_by_label "ENT", []⟩
  let st := (block.drop 1).foldl process_block_record st0
  let stFlushed :=
    match st.current_line with
    | some seg => { st with line_segments := st.line_segments ++ [seg] }
    | none => st
  stFlushed.issues
    ++ check_occurrence c "ENT" 1 entLine
    ++ check_occurrence c "ECH" (count_type block "ECH") entLine
    ++ check_occurrence c "COM" (count_type block "COM") entLine
    ++ check_occurrence c "REF(E)" stFlushed.header_ref_count entLine
    ++ check_occurrence c "ADR" (count_type block "ADR") entLine
    ++ check_occurrence c "AD2" (count_type block "AD2") entLine
    ++ check_occurrence c "LIG" (count_type block "LIG") entLine
    ++ check_occurrence c "PIE" (count_type block "PIE") entLine
    ++ (stFlushed.line_segments.map (fun seg =>
          check_occurrence c "REF(L)" seg.ref seg.line_number
          ++ check_occurrence c "LEC" seg.lec seg.line_number)).flatten

/-- Invoice-block grouping loop of _validate_structure: FIC records are
skipped, each ENT opens a new block, records before the first ENT raise a
non-fatal issue, and the trailing open block is flushed. -/
def build_blocks : List DecodedRecord → Option (List DecodedRecord) →
    List (List DecodedRecord) × List ParseIssue
  | [], current =>
    (match current with
     | some b => [b]
     | none => [], [])
  | r :: rest, current =>
    if r.record_type == "FIC" then build_blocks rest current
    else if r.record_type == "ENT" then
      let res := build_blocks rest (some [r])
      match current with
      | some b => (b :: res.1, res.2)
      | none => res
    else
      match current with
      | none =>
        let res := build_blocks rest none
        (res.1, ⟨r.line_number, .beforeFirstEnt r.record_type, []⟩ :: res.2)
      | some b => build_blocks rest (some (b ++ [r]))

/-- FixedWidthParser._validate_structure. -/
def validate_structure (c : ContractSpec) (records : List DecodedRecord) : List ParseIssue :=
  if c.structure_rules.isEmpty then []
  else
    match records with
    | [] => [⟨0, .noRecords, []⟩]
    | r0 :: _ =>
      let ficPositions := (records.filter (fun r => r.record_type == "FIC")).map
        (fun r => r.line_number)
      let ficIssues := check_occurrence c "FIC" ficPositions.length (ficPositions.headD 0)
      let firstIssues :=
        if ¬ ficPositions.isEmpty ∧ ¬ (r0.record_type == "FIC") then
          [⟨r0.line_number, .firstNotFic, []⟩]
        else []
      let grouped := build_blocks records none
      if grouped.1.isEmpty then
        ficIssues ++ firstIssues ++ grouped.2 ++ [⟨0, .noInvoiceBlock, []⟩]
      else
        ficIssues ++ firstIssues ++ grouped.2 ++ (grouped.1.map (process_block c)).flatten

/-- The two fatal outcomes of FixedWidthParser.parse_file: a re-raised decode
error, or the first structural issue raised under strict structure mode. -/
inductive ParseFileError where
  | decodeAbort (e : ParsingErrorKind)
  | structureAbort (m : IssueMsg)
deriving DecidableEq, Repr

/-- Per-line loop of FixedWidthParser.parse_file: decode each line, collect a
diagnostic on failure, and re-raise unless continue_on_error is set. -/
def parse_lines_loop (c : ContractSpec) (continueOnError : Bool) :
    Nat → List (List Char) → Except ParseFileError (List DecodedRecord × List ParseIssue)
  | _, [] => .ok ([], [])
  | n, raw :: rest =>
    let line := strip_newline raw
    match parse_line c line n with
    | .ok record =>
      match parse_lines_loop c continueOnError (n + 1) rest with
      | .ok res => .ok (record :: res.1, res.2)
      | .error e => .error e
    | .error err =>
      if continueOnError then
        match parse_lines_loop c continueOnError (n + 1) rest with
        | .ok res => .ok (res.1, ⟨n, .decodeIssue err, line⟩ :: res.2)
        | .error e => .error e
      else .error (.decodeAbort err)

/-- FixedWidthParser.parse_file over an in-memory list of raw lines: decode all
lines, then run structural validation, extend the diagnostics with the
structural issues, and raise the first structural issue when the contract
enforces strict structure and errors are not tolerated. -/
def parse_file (c : ContractSpec) (rawLines : List (List Char)) (continueOnError : Bool) :
    Except ParseFileError (List DecodedRecord × List ParseIssue) :=
  match parse_lines_loop c continueOnError 1 rawLines with
  | .error e => .error e
  | .ok res =>
    let structureIssues := validate_structure c res.1
    if ¬ structureIssues.isEmpty ∧ c.strict_structure_validation ∧ ¬ continueOnError then
      .error (.structureAbort (structureIssues.headD ⟨0, .noRecords, []⟩).message)
    else .ok (res.1, res.2 ++ structureIssues)

/-- All records that decode successfully, in order, numbering lines from n. -/
def decodable_records (c : ContractSpec) : Nat → List (List Char) → List DecodedRecord
  | _, [] => []
  | n, raw :: rest =>
    match parse_line c (strip_newline raw) n with
    | .ok r => r :: decodable_records c (n + 1) rest
    | .error _ => decodable_records c (n + 1) rest

/-- All per-line decode diagnostics, in order, numbering lines from n. -/
def decode_diagnostics (c : ContractSpec) : Nat → List (List Char) → List ParseIssue
  | _, [] => []
  | n, raw :: rest =>
    match parse_line c (strip_newline raw) n with
    | .ok _ => decode_diagnostics c (n + 1) rest
    | .error e => ⟨n, .decodeIssue e, strip_newline raw⟩ :: decode_diagnostics c (n + 1) rest

/-- Evaluated picture result, cobol_layout_parser._ParsedType and
pli_layout_parser._ParsedType. -/
structure ParsedType where
  length : Nat
  field_type : FieldType
  decimals : Option Nat
deriving DecidableEq, Repr

/-- Accumulator of the token loop in cobol_layout_parser._parse_picture. -/
structure PicScan where
  numeric_positions : Nat
  decimal_positions : Nat
  physical_length : Nat
  decimal_part : Bool
  has_alpha : Bool
deriving DecidableEq, Repr

/-- One iteration of the token loop of _parse_picture: V opens the decimal
part, S and P consume no storage, X and A flag alphanumerics, 9 and Z count
digit positions, and every counted token adds one display byte. -/
def scan_step (st : PicScan) (t : Char) : PicScan :=
  if t = 'V' then { st with decimal_part := true }
  else if t = 'S' ∨ t = 'P' then st
  else
    { numeric_positions := st.numeric_positions + (if t = '9' ∨ t = 'Z' then 1 else 0),
      decimal_positions :=
        st.decimal_positions + (if (t = '9' ∨ t = 'Z') ∧ st.decimal_part then 1 else 0),
      physical_length := st.physical_length + 1,
      decimal_part := st.decimal_part,
      has_alpha := st.has_alpha || (t == 'X' || t == 'A') }

/-- Token loop of _parse_picture as a fold of scan_step. -/
def scan_tokens (tokens : List Char) (st : PicScan) : PicScan :=
  tokens.foldl scan_step st

/-- Drop trailing dot characters (the rstrip of the period in _expand_picture). -/
def rstrip_dots (l : List Char) : List Char :=
  (l.reverse.dropWhile (fun ch => ch = '.')).reverse

/-- Expansion loop of cobol_layout_parser._expand_picture: quotes are skipped,
a token followed by a parenthesised digit count is repeated that many times,
and anything else is emitted uppercased as a single token.  Character codes 39
and 34 are the single and double quote.  Fuel-indexed: each step shortens the
list, so any fuel above the list length is enough and the zero-fuel case is
never hit from the wrapper below. -/
def expand_picture_fuel : Nat → List Char → List Char
  | 0, _ => []
  | _ + 1, [] => []
  | fuel + 1, ch :: rest =>
    let token := ch.toUpper
    if token.toNat == 39 ∨ token.toNat == 34 then expand_picture_fuel fuel rest
    else if rest.head? = some '(' then
      let rest2 := rest.tail
      let inner := rest2.takeWhile (fun d => d ≠ ')')
      if inner.length < rest2.length then
        if ¬ inner.isEmpty ∧ inner.all is_digit_char then
          List.replicate (digits_val inner) token ++
            expand_picture_fuel fuel (rest2.drop (inner.length + 1))
        else token :: expand_picture_fuel fuel rest
      else token :: expand_picture_fuel fuel rest
    else token :: expand_picture_fuel fuel rest

/-- The expansion loop run with enough fuel for its input. -/
def expand_picture_loop (l : List Char) : List Char :=
  expand_picture_fuel (l.length + 1) l

/-- cobol_layout_parser._expand_picture: strip spaces and a trailing period,
then expand repetition groups. -/
def expand_picture (pattern : String) : List Char :=
  expand_picture_loop (rstrip_dots (pattern.data.filter (fun ch => ch ≠ ' ')))

/-- Usage override of _parse_picture: packed decimal, binary, and floating
usages replace the display length when at least one digit position exists.
The usage keyword is carried as an uppercased character list (the Python
str.upper on the usage string). -/
def usage_physical_length (normalizedUsage : List Char) (numericPositions displayLength : Nat) :
    Nat :=
  if 0 < numericPositions then
    if normalizedUsage == "COMP-3".data then Nat.max 1 ((numericPositions + 1) / 2)
    else if normalizedUsage == "COMP".data ∨ normalizedUsage == "COMP-4".data ∨
        normalizedUsage == "BINARY".data then
      if numericPositions ≤ 4 then 2
      else if numericPositions ≤ 9 then 4
      else 8
    else if normalizedUsage == "COMP-1".data then 4
    else if normalizedUsage == "COMP-2".data then 8
    else displayLength
  else displayLength

/-- cobol_layout_parser._parse_picture. -/
def parse_picture (pic : String) (usage : Option String) : Option ParsedType :=
  let tokens := expand_picture pic
  if tokens.isEmpty then none
  else
    let s := scan_tokens tokens ⟨0, 0, 0, false, false⟩
    let normalizedUsage := (usage.getD "").data.map Char.toUpper
    let physicalLength := usage_physical_length normalizedUsage s.numeric_positions
      s.physical_length
    if s.has_alpha = true ∨ s.numeric_positions = 0 then
      some ⟨Nat.max 1 physicalLength, .string, none⟩
    else if 0 < s.decimal_positions then
      some ⟨Nat.max 1 physicalLength, .decimal, some s.decimal_positions⟩
    else
      some ⟨Nat.max 1 physicalLength, .integer, none⟩

/-- cobol_layout_parser._CobolNode: one declaration node as produced by
_build_tree (the raw remainder text is already distilled into the occurs,
pic, usage and redefines attributes that _emit_fields consumes). -/
inductive CobolNode where
  | mk (level : Nat) (name : String) (occurs : Nat) (pic : Option String)
      (usage : Option String) (redefines : Bool) (children : List CobolNode)

/-- Nesting level of a node. -/
def CobolNode.level : CobolNode → Nat
  | .mk level _ _ _ _ _ _ => level

/-- Normalized name of a node. -/
def CobolNode.name : CobolNode → String
  | .mk _ name _ _ _ _ _ => name

/-- Occurs count of a node. -/
def CobolNode.occurs : CobolNode → Nat
  | .mk _ _ occurs _ _ _ _ => occurs

/-- Picture clause of a node. -/
def CobolNode.pic : CobolNode → Option String
  | .mk _ _ _ pic _ _ _ => pic

/-- Usage clause of a node. -/
def CobolNode.usage : CobolNode → Option String
  | .mk _ _ _ _ usage _ _ => usage

/-- Redefinition flag of a node. -/
def CobolNode.redefines : CobolNode → Bool
  | .mk _ _ _ _ _ redefines _ => redefines

/-- Children of a node. -/
def CobolNode.children : CobolNode → List CobolNode
  | .mk _ _ _ _ _ _ children => children

/-- Mutable flattening state of _emit_fields: position cursor, emitted fields,
and the used-name set, threaded explicitly. -/
structure EmitState where
  position : Nat
  fields : List FieldSpec
  used_names : List String
deriving DecidableEq, Repr

/-- cobol_layout_parser._append_field: normalize the name, resolve collisions
with a numeric suffix, and append the field at the given start. -/
def append_field (st : EmitState) (name : String) (start length : Nat)
    (fieldType : FieldType) (decimals : Option Nat) : EmitState :=
  let base := normalize_identifier name
  let candidate := fresh_name base st.used_names
  { st with
    fields := st.fields ++ [⟨candidate, start, length, fieldType, decimals, none⟩],
    used_names := st.used_names ++ [candidate] }

/-- Leaf branch of _emit_fields: emit one field per occurrence, numbering the
copies when the occurs count is above one, advancing the cursor each time. -/
def emit_pic_fields (qualifiedName : String) (parsed : ParsedType) (occurs : Nat)
    (st : EmitState) : EmitState :=
  (List.range occurs).foldl (fun acc idx =>
    let suffix := if 1 < occurs then "_" ++ toString (idx + 1) else ""
    let acc2 := append_field acc (qualifiedName ++ suffix) acc.position parsed.length
      parsed.field_type parsed.decimals
    { acc2 with position := acc2.position + parsed.length }) st

mutual

/-- cobol_layout_parser._emit_fields: a redefinition consumes nothing, a leaf
with a recognised picture emits occurrence-numbered fields, and a group
recurses into its children once per occurrence under a qualified prefix. -/
def emit_fields (node : CobolNode) (pfx : String) (st : EmitState) : EmitState :=
  match node with
  | .mk _ name occurs pic usage redefines children =>
    if redefines then st
    else
      let qualifiedName := if pfx ≠ "" then pfx ++ "_" ++ name else name
      let occ := Nat.max 1 occurs
      match pic with
      | some p =>
        match parse_picture p usage with
        | none => st
        | some parsed => emit_pic_fields qualifiedName parsed occ st
      | none => emit_group_reps children qualifiedName pfx occ 0 st
termination_by (sizeOf node, 1, 0)

/-- Occurrence loop of the group branch of _emit_fields. -/
def emit_group_reps (children : List CobolNode) (qualifiedName pfx : String)
    (total idx : Nat) (st : EmitState) : EmitState :=
  if _h : idx < total then
    let groupSuffix := if 1 < total then "_" ++ toString (idx + 1) else ""
    let nextPfx := if qualifiedName ≠ "" then qualifiedName ++ groupSuffix else pfx
    emit_group_reps children qualifiedName pfx total (idx + 1) (emit_children children nextPfx st)
  else st
termination_by (sizeOf children, 2, total - idx)

/-- Child loop of the group branch of _emit_fields. -/
def emit_children (children : List CobolNode) (pfx : String) (st : EmitState) : EmitState :=
  match children with
  | [] => st
  | c :: rest => emit_children rest pfx (emit_fields c pfx st)
termination_by (sizeOf children, 0, 0)

end

/-- cobol_layout_parser._normalize_filter_names. -/
def normalize_filter_names (structureNames : List String) : List String :=
  (structureNames.filter (fun n => ¬ n.isEmpty)).map normalize_identifier

/-- cobol_layout_parser._normalize_filter_prefixes. -/
def normalize_filter_prefixes (structurePrefixes : List String) : List String :=
  ((structurePrefixes.filter (fun p => ¬ p.isEmpty)).map normalize_identifier).filter
    (fun p => ¬ p.isEmpty)

/-- cobol_layout_parser._should_include_record. -/
def should_include_record (recordName : String) (normalizedNames : List String)
    (normalizedPrefixes : List String) : Bool :=
  if normalizedNames.isEmpty ∧ normalizedPrefixes.isEmpty then true
  else
    let normalized := normalize_identifier recordName
    normalizedNames.contains normalized ||
      normalizedPrefixes.any (fun p => normalized.startsWith p)

/-- Record-selection loop of extract_contract_from_cobol_source: keep filtered
trees, flatten each from position one, and drop trees with no emitted field. -/
def cobol_selected_specs (recordNodes : List CobolNode)
    (structurePrefixes structureNames : List String) : List RecordSpec :=
  let normalizedNames := normalize_filter_names structureNames
  let normalizedPrefixes := normalize_filter_prefixes structurePrefixes
  (recordNodes.filterMap (fun node =>
    if ¬ should_include_record node.name normalizedNames normalizedPrefixes then none
    else
      let st := emit_fields node "" ⟨1, [], []⟩
      if st.fields.isEmpty then none
      else some {
        name := node.name,
        selector := ⟨1, 1, node.name.take 1⟩,
        fields := st.fields }))

/-- cobol_layout_parser.extract_contract_from_cobol_source from the point where
_build_tree has produced the record-node forest (file reading and the
regex-driven line parsing of _build_tree are upstream of every claim over
this function).  Returns none where the Python raises: no structure selected,
or ContractSpec validation fails. -/
def extract_contract_from_cobol_nodes (recordNodes : List CobolNode)
    (sourceProgram : String) (strict : Bool)
    (structurePrefixes structureNames : List String) : Option ContractSpec :=
  let selected := cobol_selected_specs recordNodes structurePrefixes structureNames
  if selected.isEmpty then none
  else
    let lineLength := (selected.map RecordSpec.max_end).foldl Nat.max 0
    let strictLengthValidation := strict && selected.length == 1
    mkContractSpec sourceProgram lineLength strictLengthValidation false none [] selected

/-- Expansion loop of pli_layout_parser._parse_pic_pattern: a parenthesised
count BEFORE a token repeats that token; a missing close paren or a close
paren in final position stops the expansion keeping what was expanded so far;
a non-numeric count raises ValueError, modelled as none.  Fuel-indexed: each
step shortens the list, so any fuel above the list length is enough and the
zero-fuel case is never hit from the wrapper below. -/
def pli_expand_pic_fuel : Nat → List Char → Option (List Char)
  | 0, _ => some []
  | _ + 1, [] => some []
  | fuel + 1, ch :: rest =>
    if ch = '(' then
      let inner := rest.takeWhile (fun d => d ≠ ')')
      if rest.length ≤ inner.length ∨ rest.length ≤ inner.length + 1 then some []
      else if ¬ inner.isEmpty ∧ inner.all is_digit_char then
        match (rest.drop (inner.length + 1)).head? with
        | some tok =>
          (pli_expand_pic_fuel fuel (rest.drop (inner.length + 2))).map
            (fun tl => List.replicate (digits_val inner) tok ++ tl)
        | none => some []
      else none
    else (pli_expand_pic_fuel fuel rest).map (fun tl => ch :: tl)

/-- The PL/I expansion loop run with enough fuel for its input. -/
def pli_expand_pic (l : List Char) : Option (List Char) :=
  pli_expand_pic_fuel (l.length + 1) l

/-- Accumulator of the counting loop in _parse_pic_pattern. -/
structure PliScan where
  physical_length : Nat
  decimal_digits : Nat
  decimal_part : Bool
deriving DecidableEq, Repr

/-- Counting loop of _parse_pic_pattern: V opens the decimal part and consumes
no storage; the listed symbols each take one byte; 9 and Z after the V count
as decimal digits. -/
def pli_scan : List Char → PliScan → PliScan
  | [], st => st
  | t :: rest, st =>
    let upper := t.toUpper
    if upper = 'V' then pli_scan rest { st with decimal_part := true }
    else if upper = '9' ∨ upper = 'Z' ∨ upper = 'A' ∨ upper = 'X' ∨ upper = 'B' ∨
        upper = '.' ∨ upper = ',' ∨ upper = '-' ∨ upper = '+' ∨ upper = '/' then
      pli_scan rest
        { st with
          physical_length := st.physical_length + 1,
          decimal_digits :=
            st.decimal_digits +
              (if st.decimal_part ∧ (upper = '9' ∨ upper = 'Z') then 1 else 0) }
    else pli_scan rest st

/-- pli_layout_parser._parse_pic_pattern: returns (physical_length,
decimal_digits); none models the ValueError of a malformed repetition count. -/
def parse_pic_pattern (pattern : String) : Option (Nat × Nat) :=
  (pli_expand_pic (pattern.data.filter (fun ch => ch ≠ ' '))).map (fun expanded =>
    let s := pli_scan expanded ⟨0, 0, false⟩
    (s.physical_length, s.decimal_digits))

/-- The PIC branch of pli_layout_parser._parse_decl_type, applied to the
picture pattern already extracted by the regex: decimal when the decimal digit
count is positive, integer otherwise, never string. -/
def pli_pic_decl_type (pattern : String) : Option ParsedType :=
  (parse_pic_pattern pattern).map (fun ld =>
    ⟨ld.1,
     if 0 < ld.2 then FieldType.decimal else FieldType.integer,
     if ld.2 = 0 then none else some ld.2⟩)

/-- Line-length rule of extract_contract_from_pli_source: the common
sum_of_lengths when all selected records agree, the maximum otherwise (the
Python set of sums is modelled by dedup, its max by a fold). -/
def pli_line_length (records : List RecordSpec) : Nat :=
  let lens := (records.map RecordSpec.sum_of_lengths).dedup
  match lens with
  | [l] => l
  | _ => lens.foldl Nat.max 0

/-- pli_layout_parser.extract_contract_from_pli_source from the point where
_build_record_specs_from_text has produced the selected record specs (file
reading and the regex-driven declaration parsing are upstream of every claim
over this function).  Returns none where the Python raises. -/
def extract_contract_from_pli_records (records : List RecordSpec)
    (sourceProgram : String) (strict : Bool) : Option ContractSpec :=
  if records.isEmpty then none
  else mkContractSpec sourceProgram (pli_line_length records) strict false none [] records

/-- idil_structure_rules._build_default_rules: the default IDIL document
grammar (descriptions kept verbatim; the apostrophes of the French text are
written as the escape of character 39). -/
def build_default_rules : List StructureRule :=
  [⟨"FIC", "FIC", .file, 1, some 1, 1, some "En-tete de fichier"⟩,
   ⟨"ENT", "ENT", .invoice, 1, some 1, 2, some "En-tete de facture"⟩,
   ⟨"ECH", "ECH", .invoice, 1, none, 3, some "Dates d\x27echeance"⟩,
   ⟨"COM", "COM", .invoice, 0, none, 4, some "Commentaires libres"⟩,
   ⟨"REF(E)", "REF", .invoice, 0, none, 5, some "References de facture"⟩,
   ⟨"ADR", "ADR", .invoice, 1, some 1, 6, some "Ligne d\x27adresse"⟩,
   ⟨"AD2", "AD2", .invoice, 1, some 1, 7, some "Complement ligne d\x27adresse"⟩,
   ⟨"LIG", "LIG", .invoice, 1, none, 8, some "Ligne de facture"⟩,
   ⟨"REF(L)", "REF", .line, 0, none, 9, some "Reference ligne"⟩,
   ⟨"LEC", "LEC", .line, 0, none, 10, some "Echeance ligne"⟩,
   ⟨"PIE", "PIE", .invoice, 0, none, 11, some "Pied de facture / recapitulatif TVA"⟩]

/-- A single-field string record used by the concrete test contracts: one
four-byte string field, selector letter A at position one. -/
def recR : RecordSpec :=
  ⟨"R", ⟨1, 1, "A"⟩, [⟨"F1", 1, 4, FieldType.string, none, none⟩]⟩

/-- A record whose field layout sums to three bytes. -/
def recShort : RecordSpec :=
  ⟨"S", ⟨1, 1, "S"⟩, [⟨"G1", 1, 3, FieldType.string, none, none⟩]⟩

/-- A record whose field layout sums to five bytes. -/
def recLong : RecordSpec :=
  ⟨"T", ⟨1, 1, "T"⟩, [⟨"H1", 1, 5, FieldType.string, none, none⟩]⟩

/-- A strict four-byte contract over recR, as mkContractSpec produces it. -/
def strictContract : ContractSpec :=
  { schema_version := "1.0", source_program := "PROG", line_length := 4,
    strict_length_validation := true, strict_structure_validation := false,
    structure_source := none, structure_rules := [], record_types := [recR] }

/-- The same contract with strict length validation off. -/
def lenientContract : ContractSpec :=
  { strictContract with strict_length_validation := false }

/-- A contract carrying the default IDIL structure rules, for the structural
validator runs. -/
def idilContract : ContractSpec :=
  { strictContract with structure_rules := build_default_rules }

/-- A decimal field with two implicit decimals, as in the spec examples. -/
def amountField : FieldSpec := ⟨"AMOUNT", 1, 5, FieldType.decimal, some 2, none⟩

/-- Input lines whose second line is one byte short of the contract length. -/
def mixedLines : List (List Char) := ["ABCD".data, "AB".data]

/-- Decoded record stream with two consecutive ENT headers and no LIG detail
record inside the first invoice block. -/
def doubleEntRecords : List DecodedRecord :=
  [⟨"FIC", 1, []⟩, ⟨"ENT", 2, []⟩, ⟨"ECH", 3, []⟩, ⟨"ADR", 4, []⟩, ⟨"AD2", 5, []⟩,
   ⟨"ENT", 6, []⟩, ⟨"ECH", 7, []⟩, ⟨"ADR", 8, []⟩, ⟨"AD2", 9, []⟩, ⟨"LIG", 10, []⟩]

/-- Two flattened COBOL record trees: a numeric leaf and an alphanumeric leaf. -/
def twoCobolNodes : List CobolNode :=
  [.mk 1 "AREC" 1 (some "9(3)") none false [],
   .mk 1 "BREC" 1 (some "X(3)") none false []]

/-- The contract extract_contract_from_cobol_nodes builds from twoCobolNodes
with strict requested: two record types, so strict length validation is off. -/
def twoCobolContract : ContractSpec :=
  { schema_version := "1.0", source_program := "COBOL_SOURCE", line_length := 3,
    strict_length_validation := false, strict_structure_validation := false,
    structure_source := none, structure_rules := [],
    record_types :=
      [⟨"AREC", ⟨1, 1, "A"⟩, [⟨"AREC", 1, 3, FieldType.integer, none, none⟩]⟩,
       ⟨"BREC", ⟨1, 1, "B"⟩, [⟨"BREC", 1, 3, FieldType.string, none, none⟩]⟩] }

theorem validate_record_ranges_iff (strict : Bool) (lineLength : Nat)
    (recs : List RecordSpec) :
    validate_record_ranges strict lineLength recs = true ↔
      ∀ r ∈ recs, r.max_end ≤ lineLength ∧
        (strict = true → r.sum_of_lengths = lineLength) := by
  induction recs with
  | nil => simp [validate_record_ranges]
  | cons r rest ih =>
    unfold validate_record_ranges
    split_ifs with h1 h2
    · simp only [false_iff]
      intro hall
      exact absurd (hall r (List.mem_cons_self r rest)).1 (by omega)
    · simp only [false_iff]
      intro hall
      have h2a : strict = true ∧ r.sum_of_lengths ≠ lineLength := by simpa using h2
      exact h2a.2 ((hall r (List.mem_cons_self r rest)).2 h2a.1)
    · rw [ih]
      constructor
      · intro hall x hx
        rcases List.mem_cons.mp hx with rfl | hx2
        · refine ⟨by omega, ?_⟩
          intro hs
          by_contra hne
          exact h2 (by simp [hs, hne])
        · exact hall x hx2
      · intro hall x hx
        exact hall x (List.mem_cons_of_mem r hx)

theorem mkContractSpec_some_eq (sp : String) (lineLength : Nat) (sl ss : Bool)
    (src : Option String) (rules : List StructureRule) (recs : List RecordSpec)
    (c : ContractSpec)
    (h : mkContractSpec sp lineLength sl ss src rules recs = some c) :
    c.source_program = sp ∧ c.line_length = lineLength ∧
      c.strict_length_validation = sl ∧ c.strict_structure_validation = ss ∧
      c.structure_rules = rules ∧ c.record_types = recs ∧
      validate_record_ranges sl lineLength recs = true := by
  unfold mkContractSpec at h
  split_ifs at h with h1 h2 h3 h4 h5
  cases h
  have hval : validate_record_ranges sl lineLength recs = true := by
    simpa using h5
  exact ⟨rfl, rfl, rfl, rfl, rfl, rfl, hval⟩

theorem mkContractSpec_none_of_invalid (sp : String) (lineLength : Nat) (sl ss : Bool)
    (src : Option String) (rules : List StructureRule) (recs : List RecordSpec)
    (h : validate_record_ranges sl lineLength recs = false) :
    mkContractSpec sp lineLength sl ss src rules recs = none := by
  unfold mkContractSpec
  split_ifs with h1 h2 h3 h4 h5 <;> try rfl
  simp [h] at h5

theorem decode_with_record_error_kind (c : ContractSpec) (line : List Char) (n : Nat)
    (e : ParsingErrorKind) (h : decode_with_record c line n = .error e) :
    e = .unknownRecordType n := by
  unfold decode_with_record at h
  cases hr : record_for_line c line with
  | none => rw [hr] at h; simpa using h.symm
  | some r => rw [hr] at h; cases h

/-- C1: every successfully constructed ContractSpec satisfies max_end at most
line_length for every record type and, when strict_length_validation holds,
sum_of_lengths equal to line_length exactly; the parser re-validation of
FixedWidthParser._validate_contract accepts every such contract; and any
input violating either condition is rejected at construction, so no partial
contract is produced. -/
theorem contract_construction_invariants (sp : String) (lineLength : Nat)
    (sl ss : Bool) (src : Option String) (rules : List StructureRule)
    (recs : List RecordSpec) :
    (∀ c, mkContractSpec sp lineLength sl ss src rules recs = some c →
       (∀ r ∈ c.record_types, r.max_end ≤ c.line_length ∧
          (c.strict_length_validation = true → r.sum_of_lengths = c.line_length)) ∧
       validate_contract c = true) ∧
    ((∃ r ∈ recs, lineLength < r.max_end ∨
        (sl = true ∧ r.sum_of_lengths ≠ lineLength)) →
       mkContractSpec sp lineLength sl ss src rules recs = none) := by
  constructor
  · intro c hc
    obtain ⟨hsp, hL, hsl, hss, hrules, hrecs, hval⟩ :=
      mkContractSpec_some_eq sp lineLength sl ss src rules recs c hc
    constructor
    · intro r hr
      have hmem : r ∈ recs := by rwa [hrecs] at hr
      have := (validate_record_ranges_iff sl lineLength recs).mp hval r hmem
      rw [hL, hsl]
      exact this
    · unfold validate_contract
      rw [hsl, hL, hrecs]
      exact hval
  · rintro ⟨r, hr, hviol⟩
    have hval : validate_record_ranges sl lineLength recs = false := by
      cases hb : validate_record_ranges sl lineLength recs
      · rfl
      · have h2 := (validate_record_ranges_iff sl lineLength recs).mp hb r hr
        rcases hviol with h3 | ⟨h3, h4⟩
        · exact absurd h2.1 (by omega)
        · exact absurd (h2.2 h3) h4
    exact mkContractSpec_none_of_invalid sp lineLength sl ss src rules recs hval

/-- Witness of C1 at concrete inputs: the constructed strict four-byte contract
satisfies the invariants, and a strict construction over a three-byte record
with a five-byte line length is rejected. -/
theorem contract_construction_invariants_witness :
    (∀ r ∈ strictContract.record_types,
       r.max_end ≤ strictContract.line_length ∧
       (strictContract.strict_length_validation = true →
          r.sum_of_lengths = strictContract.line_length)) ∧
    mkContractSpec "PROG" 5 true false none [] [recR] = none := by
  constructor
  · exact ((contract_construction_invariants "PROG" 4 true false none [] [recR]).1
      strictContract (by decide)).1
  · exact (contract_construction_invariants "PROG" 5 true false none [] [recR]).2
      ⟨recR, by decide, Or.inr ⟨rfl, by decide⟩⟩

/-- C6: for a line whose length differs from line_length, strict mode fails
with a length-mismatch issue; non-strict mode right-pads a shorter line with
spaces or truncates a longer line to the contract length, decodes the
adjusted line, and never emits a length-mismatch issue. -/
theorem line_length_policy (c : ContractSpec) (line : List Char) (n : Nat) :
    (c.strict_length_validation = true → line.length ≠ c.line_length →
       parse_line c line n = .error (.lengthMismatch n line.length c.line_length)) ∧
    (c.strict_length_validation = false → line.length < c.line_length →
       parse_line c line n =
         decode_with_record c (line ++ List.replicate (c.line_length - line.length) ' ') n) ∧
    (c.strict_length_validation = false → c.line_length < line.length →
       parse_line c line n = decode_with_record c (line.take c.line_length) n) ∧
    (c.strict_length_validation = false →
       ∀ m a b, parse_line c line n ≠ .error (.lengthMismatch m a b)) := by
  refine ⟨?_, ?_, ?_, ?_⟩
  · intro hs hne
    unfold parse_line
    rw [if_neg hne, if_pos hs]
  · intro hs hlt
    unfold parse_line effective_line
    rw [if_neg (by omega), if_neg (by simp [hs]), if_pos hlt]
  · intro hs hgt
    unfold parse_line effective_line
    rw [if_neg (by omega), if_neg (by simp [hs]), if_neg (by omega)]
  · intro hs m a b hcontra
    unfold parse_line at hcontra
    by_cases hlen : line.length = c.line_length
    · rw [if_pos hlen] at hcontra
      have := decode_with_record_error_kind c line n _ hcontra
      cases this
    · rw [if_neg hlen, if_neg (by simp [hs])] at hcontra
      have := decode_with_record_error_kind c (effective_line c line) n _ hcontra
      cases this

/-- Witness of C6 at concrete inputs: the strict contract rejects a two-byte
line with a length mismatch at line two, and the lenient contract decodes the
padded line. -/
theorem line_length_policy_witness :
    parse_line strictContract "AB".data 2 = .error (.lengthMismatch 2 2 4) ∧
    parse_line lenientContract "AB".data 2 =
      decode_with_record lenientContract
        ("AB".data ++ List.replicate (lenientContract.line_length - ("AB".data).length) ' ')
        2 := by
  constructor
  · exact (line_length_policy strictContract "AB".data 2).1 rfl (by decide)
  · exact (line_length_policy lenientContract "AB".data 2).2.1 rfl (by decide)

theorem coerce_decimal_no_point (raw : List Char) (f : FieldSpec) (d : Nat) (q : ℚ)
    (htype : f.type = FieldType.decimal) (hdec : f.decimals = some d)
    (hne : (normalize_numeric (rstrip raw)).isEmpty = false)
    (hnodot : (normalize_numeric (rstrip raw)).contains '.' = false)
    (hq : parse_decimal_string (normalize_numeric (rstrip raw)) = some q) :
    coerce_value raw f = .vdec (q / (10 : ℚ) ^ d) := by
  have hnodot2 : '.' ∉ normalize_numeric (rstrip raw) := by simpa using hnodot
  obtain ⟨fn, fs, fl, ft, fd, fdesc⟩ := f
  simp only at htype hdec
  subst htype
  subst hdec
  unfold coerce_value
  simp [hne, hq, hnodot, hnodot2]

theorem coerce_decimal_with_point (raw : List Char) (f : FieldSpec) (q : ℚ)
    (htype : f.type = FieldType.decimal)
    (hne : (normalize_numeric (rstrip raw)).isEmpty = false)
    (hdot : (normalize_numeric (rstrip raw)).contains '.' = true)
    (hq : parse_decimal_string (normalize_numeric (rstrip raw)) = some q) :
    coerce_value raw f = .vdec q := by
  have hdot2 : '.' ∈ normalize_numeric (rstrip raw) := by simpa using hdot
  obtain ⟨fn, fs, fl, ft, fd, fdesc⟩ := f
  simp only at htype
  subst htype
  unfold coerce_value
  simp [hne, hq, hdot, hdot2]

/-- C5: decoding a decimal field whose normalized text has no literal decimal
point yields the parsed integer magnitude divided by ten to the power
decimals; in particular raw 00150 with two decimals decodes to 1.50, and raw
1,50 (comma mapped to a dot) also decodes to 1.50. -/
theorem implicit_decimal_scaling (raw : List Char) (f : FieldSpec) (d : Nat) (q : ℚ)
    (htype : f.type = FieldType.decimal) (hdec : f.decimals = some d)
    (hne : (normalize_numeric (rstrip raw)).isEmpty = false)
    (hnodot : (normalize_numeric (rstrip raw)).contains '.' = false)
    (hq : parse_decimal_string (normalize_numeric (rstrip raw)) = some q) :
    coerce_value raw f = .vdec (q / (10 : ℚ) ^ d) ∧
    coerce_value "00150".data amountField = .vdec ((3 : ℚ) / 2) ∧
    coerce_value "1,50".data amountField = .vdec ((3 : ℚ) / 2) := by
  refine ⟨coerce_decimal_no_point raw f d q htype hdec hne hnodot hq, ?_, ?_⟩
  · have h := coerce_decimal_no_point "00150".data amountField 2 (((150 : ℕ) : ℚ))
      rfl rfl (by decide) (by decide) rfl
    rw [h]
    have heq : (((150 : ℕ) : ℚ)) / (10 : ℚ) ^ 2 = (3 : ℚ) / 2 := by norm_num
    rw [heq]
  · have h := coerce_decimal_with_point "1,50".data amountField
      ((((1 : ℕ) : ℚ)) + (((50 : ℕ) : ℚ)) / (10 : ℚ) ^ 2)
      rfl (by decide) (by decide) rfl
    rw [h]
    have heq : (((1 : ℕ) : ℚ)) + (((50 : ℕ) : ℚ)) / (10 : ℚ) ^ 2 = (3 : ℚ) / 2 := by
      norm_num
    rw [heq]

/-- Witness of C5: the general scaling theorem applied at the concrete raw
text 00150 with two decimals. -/
theorem implicit_decimal_scaling_witness :
    coerce_value "00150".data amountField = .vdec ((((150 : ℕ) : ℚ)) / (10 : ℚ) ^ 2) := by
  exact (implicit_decimal_scaling "00150".data amountField 2 (((150 : ℕ) : ℚ)) rfl rfl
    (by decide) (by decide) rfl).1

/-- C3 (evaluation at the claimed inputs): packed 9(5)V99 evaluates to 4 bytes
with decimal digit count 2; binary 9(4), 9(7) and 9(12) evaluate to 2, 4 and
8 bytes; and packed 9(4) evaluates to 2 bytes, the failing input of the
claimed formula ceil((4+1)/2) = 3 — the code computes the floor, not the
ceiling, of (significant_digits+1)/2. -/
theorem packed_binary_length_eval :
    parse_picture "9(5)V99" (some "COMP-3") = some ⟨4, .decimal, some 2⟩ ∧
    parse_picture "9(4)" (some "COMP") = some ⟨2, .integer, none⟩ ∧
    parse_picture "9(7)" (some "COMP") = some ⟨4, .integer, none⟩ ∧
    parse_picture "9(12)" (some "COMP") = some ⟨8, .integer, none⟩ ∧
    parse_picture "9(4)" (some "COMP-3") = some ⟨2, .integer, none⟩ ∧
    (2 : Nat) ≠ (4 + 1 + 1) / 2 := by decide

/-- Counterexample to C4: the PL/I evaluator does not expand suffix repetition
token(n); on the picture 9(5)V99 it expands the prefix form (5)V instead and
returns physical length 3, not 7. -/
theorem pli_suffix_repetition_counterexample :
    parse_pic_pattern "9(5)V99" = some (3, 2) ∧
    parse_pic_pattern "9(5)V99" ≠ some (7, 2) := by decide

/-- C4 amended: the COBOL evaluator expands suffix repetition token(n), so
9(5)V99 evaluates with seven digit positions (display length 7, decimals 2);
the PL/I evaluator expands prefix repetition (n)token, so its equivalent
picture (5)9V99 evaluates to (7, 2). -/
theorem repetition_expansion_by_dialect :
    expand_picture "9(5)" = ['9', '9', '9', '9', '9'] ∧
    parse_picture "9(5)V99" none = some ⟨7, .decimal, some 2⟩ ∧
    pli_expand_pic "(5)9".data = some ['9', '9', '9', '9', '9'] ∧
    parse_pic_pattern "(5)9V99" = some (7, 2) := by decide

/-- C8: under the default IDIL rules, a stream with two consecutive ENT
headers and no LIG between them yields exactly one issue: the LIG
occurrence-bound violation (minimum 1, found 0) at the first ENT line; in
particular no ordering-violation issue is emitted for the second ENT. -/
theorem consecutive_ent_missing_lig :
    validate_structure idilContract doubleEntRecords =
      [⟨2, IssueMsg.occurrenceMin "LIG" 1 0, []⟩] := by decide

theorem scan_step_has_alpha_mono (st : PicScan) (t : Char) (h : st.has_alpha = true) :
    (scan_step st t).has_alpha = true := by
  unfold scan_step
  split_ifs <;> simp [h]

theorem scan_tokens_has_alpha_mono (ts : List Char) (st : PicScan)
    (h : st.has_alpha = true) : (scan_tokens ts st).has_alpha = true := by
  induction ts generalizing st with
  | nil => simpa [scan_tokens] using h
  | cons t rest ih =>
    unfold scan_tokens at ih ⊢
    simp only [List.foldl_cons]
    exact ih (scan_step st t) (scan_step_has_alpha_mono st t h)

theorem scan_tokens_has_alpha_of_mem (ts : List Char) (st : PicScan)
    (h : 'X' ∈ ts ∨ 'A' ∈ ts) : (scan_tokens ts st).has_alpha = true := by
  induction ts generalizing st with
  | nil => rcases h with h | h <;> cases h
  | cons t rest ih =>
    unfold scan_tokens at ih ⊢
    simp only [List.foldl_cons]
    by_cases hx : t = 'X' ∨ t = 'A'
    · have hstep : (scan_step st t).has_alpha = true := by
        unfold scan_step
        rcases hx with rfl | rfl <;> simp
      exact scan_tokens_has_alpha_mono rest (scan_step st t) hstep
    · have hmem : 'X' ∈ rest ∨ 'A' ∈ rest := by
        rcases h with h | h
        · rcases List.mem_cons.mp h with h2 | h2
          · exact absurd (Or.inl h2.symm) hx
          · exact Or.inl h2
        · rcases List.mem_cons.mp h with h2 | h2
          · exact absurd (Or.inr h2.symm) hx
          · exact Or.inr h2
      exact ih (scan_step st t) hmem

/-- Counterexample to C7: the PL/I picture evaluator maps the all-alphabetic
picture AAA to logical type integer, not string — the presence of alphabetic
symbols does not force string in that evaluator. -/
theorem pli_alpha_picture_counterexample :
    pli_pic_decl_type "AAA" = some ⟨3, .integer, none⟩ ∧
    (pli_pic_decl_type "AAA").map ParsedType.field_type ≠ some FieldType.string := by
  decide

/-- C7 amended: in the COBOL evaluator the presence of any X or A symbol in
the expanded picture forces logical type string regardless of digit count; in
the PL/I picture evaluator the logical type is never string — it is decimal
or integer from the decimal digit count alone, string arising only from CHAR
declarations. -/
theorem alpha_forces_string_by_dialect :
    (∀ (pic : String) (usage : Option String) (t : ParsedType),
       ('X' ∈ expand_picture pic ∨ 'A' ∈ expand_picture pic) →
       parse_picture pic usage = some t → t.field_type = FieldType.string) ∧
    (∀ (pattern : String) (t : ParsedType),
       pli_pic_decl_type pattern = some t → t.field_type ≠ FieldType.string) := by
  constructor
  · intro pic usage t halpha hparse
    unfold parse_picture at hparse
    cases hemp : (expand_picture pic).isEmpty with
    | true =>
      have he : expand_picture pic = [] := by simpa using hemp
      rw [he] at halpha
      rcases halpha with h | h <;> cases h
    | false =>
      have hA : (scan_tokens (expand_picture pic) ⟨0, 0, 0, false, false⟩).has_alpha = true :=
        scan_tokens_has_alpha_of_mem (expand_picture pic) ⟨0, 0, 0, false, false⟩ halpha
      simp only [hemp, Bool.false_eq_true, if_false, hA, true_or, if_true] at hparse
      rw [← Option.some.inj hparse]
  · intro pattern t h
    unfold pli_pic_decl_type at h
    cases hp : parse_pic_pattern pattern with
    | none => rw [hp] at h; cases h
    | some ld =>
      rw [hp] at h
      simp only [Option.map_some'] at h
      have h2 := Option.some.inj h
      rw [← h2]
      by_cases h3 : 0 < ld.2 <;> simp [h3]

/-- Witness of C7 amended: applied at the COBOL picture X9 (string despite a
digit position) and the PL/I picture AAA (not string despite only alphabetic
symbols). -/
theorem alpha_forces_string_by_dialect_witness :
    ParsedType.field_type ⟨2, FieldType.string, none⟩ = FieldType.string ∧
    ParsedType.field_type ⟨3, FieldType.integer, none⟩ ≠ FieldType.string := by
  constructor
  · exact alpha_forces_string_by_dialect.1 "X9" none ⟨2, FieldType.string, none⟩
      (by decide) (by decide)
  · exact alpha_forces_string_by_dialect.2 "AAA" ⟨3, FieldType.integer, none⟩ (by decide)

theorem parse_lines_loop_tolerant (c : ContractSpec) (ls : List (List Char)) :
    ∀ n, parse_lines_loop c true n ls =
      .ok (decodable_records c n ls, decode_diagnostics c n ls) := by
  induction ls with
  | nil => intro n; rfl
  | cons raw rest ih =>
    intro n
    simp only [parse_lines_loop, decodable_records, decode_diagnostics]
    cases h : parse_line c (strip_newline raw) n with
    | ok r => simp [h, ih (n + 1)]
    | error e => simp [h, ih (n + 1)]

theorem parse_lines_loop_error_decode (c : ContractSpec) (coe : Bool)
    (ls : List (List Char)) :
    ∀ n e, parse_lines_loop c coe n ls = .error e → ∃ k, e = .decodeAbort k := by
  induction ls with
  | nil => intro n e h; cases h
  | cons raw rest ih =>
    intro n e h
    simp only [parse_lines_loop] at h
    cases hp : parse_line c (strip_newline raw) n with
    | ok r =>
      rw [hp] at h
      cases hrec : parse_lines_loop c coe (n + 1) rest with
      | ok res => rw [hrec] at h; cases h
      | error e2 =>
        rw [hrec] at h
        cases h
        exact ih (n + 1) e hrec
    | error err =>
      rw [hp] at h
      cases coe with
      | true =>
        simp only [if_true] at h
        cases hrec : parse_lines_loop c true (n + 1) rest with
        | ok res => rw [hrec] at h; cases h
        | error e2 =>
          rw [hrec] at h
          cases h
          exact ih (n + 1) e hrec
      | false =>
        simp only [Bool.false_eq_true, if_false] at h
        cases h
        exact ⟨err, rfl⟩

/-- Counterexample to C2: under the default continue_on_error = False, a file
whose second line fails strict length decoding is aborted with a raised
error and the caller receives neither the decodable first record nor the
diagnostics; only with continue_on_error = True does the caller get the
complete decodable record set plus the full diagnostics list. -/
theorem parse_file_default_counterexample :
    parse_file strictContract mixedLines false =
      .error (.decodeAbort (.lengthMismatch 2 2 4)) ∧
    parse_file strictContract mixedLines true =
      .ok ([⟨"R", 1, [("F1", .vstr "ABCD".data)]⟩],
           [⟨2, .decodeIssue (.lengthMismatch 2 2 4), "AB".data⟩]) := ⟨rfl, rfl⟩

/-- C2 amended: decode and structural issues accumulate into one diagnostics
list; aborting is controlled by the two independent flags continue_on_error
and strict_structure_validation, whose defaults are abort-on-first-decode-
issue (continue_on_error = False) and collect-without-aborting for structure
(strict_structure_validation = False).  With continue_on_error set the caller
always receives every decodable record plus the full diagnostics list; under
the default, any abort is a decode error, and a structural abort can only
happen when strict structure validation was explicitly enabled. -/
theorem parse_file_error_policy (c : ContractSpec) (rawLines : List (List Char)) :
    parse_file c rawLines true =
      .ok (decodable_records c 1 rawLines,
           decode_diagnostics c 1 rawLines ++
             validate_structure c (decodable_records c 1 rawLines)) ∧
    (∀ e, parse_file c rawLines false = .error e →
       (∃ k, e = ParseFileError.decodeAbort k) ∨
       (c.strict_structure_validation = true ∧
          ∃ m, e = ParseFileError.structureAbort m)) := by
  constructor
  · unfold parse_file
    rw [parse_lines_loop_tolerant c rawLines 1]
    simp
  · intro e h
    unfold parse_file at h
    cases hl : parse_lines_loop c false 1 rawLines with
    | error e2 =>
      rw [hl] at h
      dsimp only at h
      cases h
      exact Or.inl (parse_lines_loop_error_decode c false rawLines 1 e hl)
    | ok res =>
      rw [hl] at h
      dsimp only at h
      by_cases hcond : ¬ (validate_structure c res.1).isEmpty = true ∧
          c.strict_structure_validation = true ∧ ¬ false = true
      · rw [if_pos hcond] at h
        cases h
        exact Or.inr ⟨hcond.2.1, _, rfl⟩
      · rw [if_neg hcond] at h
        cases h

/-- Witness of C2 amended: applied at the concrete strict contract, with the
tolerant run on a good file and the default run on the mixed file whose
second line aborts decoding. -/
theorem parse_file_error_policy_witness :
    parse_file strictContract ["ABCD".data] true =
      .ok (decodable_records strictContract 1 ["ABCD".data],
           decode_diagnostics strictContract 1 ["ABCD".data] ++
             validate_structure strictContract
               (decodable_records strictContract 1 ["ABCD".data])) ∧
    ((∃ k, ParseFileError.decodeAbort (.lengthMismatch 2 2 4) =
        ParseFileError.decodeAbort k) ∨
     (strictContract.strict_structure_validation = true ∧
        ∃ m, ParseFileError.decodeAbort (.lengthMismatch 2 2 4) =
          ParseFileError.structureAbort m)) := by
  exact ⟨(parse_file_error_policy strictContract ["ABCD".data]).1,
         (parse_file_error_policy strictContract mixedLines).2
           (ParseFileError.decodeAbort (.lengthMismatch 2 2 4)) (by rfl)⟩

/-- C9: the contract returned by the COBOL extraction has
strict_length_validation equal to the requested strict flag AND-ed with
whether exactly one record type was selected; in particular any returned
contract with two or more record types has the flag off even when strict was
requested. -/
theorem cobol_strict_single_record (recordNodes : List CobolNode) (sp : String)
    (strict : Bool) (prefixes names : List String) :
    (∀ c, extract_contract_from_cobol_nodes recordNodes sp strict prefixes names = some c →
       c.strict_length_validation = (strict && c.record_types.length == 1)) ∧
    (∀ c, extract_contract_from_cobol_nodes recordNodes sp true prefixes names = some c →
       2 ≤ c.record_types.length → c.strict_length_validation = false) := by
  have hmain : ∀ (st : Bool) c,
      extract_contract_from_cobol_nodes recordNodes sp st prefixes names = some c →
      c.strict_length_validation =
        (st && (cobol_selected_specs recordNodes prefixes names).length == 1) ∧
      c.record_types = cobol_selected_specs recordNodes prefixes names := by
    intro st c hc
    unfold extract_contract_from_cobol_nodes at hc
    by_cases hemp : (cobol_selected_specs recordNodes prefixes names).isEmpty = true
    · rw [if_pos hemp] at hc
      cases hc
    · rw [if_neg hemp] at hc
      obtain ⟨_, _, hsl, _, _, hrecs, _⟩ := mkContractSpec_some_eq _ _ _ _ _ _ _ c hc
      exact ⟨hsl, hrecs⟩
  constructor
  · intro c hc
    obtain ⟨hsl, hrecs⟩ := hmain strict c hc
    rw [hsl, hrecs]
  · intro c hc hlen
    obtain ⟨hsl, hrecs⟩ := hmain true c hc
    rw [hrecs] at hlen
    have hne : (cobol_selected_specs recordNodes prefixes names).length ≠ 1 := by omega
    rw [hsl]
    simp [hne]

/-- Witness of C9: the two-record COBOL forest extracted with strict requested
yields a contract whose strict length flag is off. -/
theorem cobol_strict_single_record_witness :
    twoCobolContract.strict_length_validation = false := by
  have hx : extract_contract_from_cobol_nodes twoCobolNodes "COBOL_SOURCE" true [] []
      = some twoCobolContract := by
    simp only [extract_contract_from_cobol_nodes, cobol_selected_specs, twoCobolNodes,
      List.filterMap, emit_fields]
    decide
  exact (cobol_strict_single_record twoCobolNodes "COBOL_SOURCE" true [] []).2
    twoCobolContract hx (by decide)

theorem foldl_max_init (l : List Nat) : ∀ a, l.foldl Nat.max a = Nat.max a (l.foldl Nat.max 0) := by
  induction l with
  | nil =>
    intro a
    simp only [List.foldl_nil, Nat.max_def]
    split_ifs <;> omega
  | cons b t ih =>
    intro a
    simp only [List.foldl_cons]
    rw [ih (Nat.max a b), ih (Nat.max 0 b)]
    simp only [Nat.max_def]
    split_ifs <;> omega

theorem le_foldl_max (l : List Nat) (a : Nat) (h : a ∈ l) : a ≤ l.foldl Nat.max 0 := by
  induction l with
  | nil => cases h
  | cons b t ih =>
    simp only [List.foldl_cons]
    rw [foldl_max_init t (Nat.max 0 b)]
    rcases List.mem_cons.mp h with rfl | h2
    · simp only [Nat.max_def]
      split_ifs <;> omega
    · have h3 := ih h2
      simp only [Nat.max_def]
      split_ifs <;> omega

theorem foldl_max_le (l : List Nat) (b : Nat) (h : ∀ x ∈ l, x ≤ b) :
    l.foldl Nat.max 0 ≤ b := by
  induction l with
  | nil => simp
  | cons c t ih =>
    simp only [List.foldl_cons]
    rw [foldl_max_init t (Nat.max 0 c)]
    have h1 : c ≤ b := h c (List.mem_cons_self c t)
    have h2 : t.foldl Nat.max 0 ≤ b := ih (fun x hx => h x (List.mem_cons_of_mem c hx))
    simp only [Nat.max_def]
    split_ifs <;> omega

theorem foldl_max_dedup (l : List Nat) : l.dedup.foldl Nat.max 0 = l.foldl Nat.max 0 := by
  apply Nat.le_antisymm
  · exact foldl_max_le _ _ (fun x hx => le_foldl_max _ _ (List.mem_dedup.mp hx))
  · exact foldl_max_le _ _ (fun x hx => le_foldl_max _ _ (List.mem_dedup.mpr hx))

theorem pli_line_length_const (records : List RecordSpec) (s : Nat)
    (hne : records ≠ []) (hall : ∀ r ∈ records, r.sum_of_lengths = s) :
    pli_line_length records = s := by
  have hmem : s ∈ (records.map RecordSpec.sum_of_lengths).dedup := by
    rcases records with _ | ⟨r0, rest⟩
    · exact absurd rfl hne
    · apply List.mem_dedup.mpr
      exact List.mem_map.mpr ⟨r0, List.mem_cons_self r0 rest,
        hall r0 (List.mem_cons_self r0 rest)⟩
  have hallm : ∀ x ∈ (records.map RecordSpec.sum_of_lengths).dedup, x = s := by
    intro x hx
    rcases List.mem_map.mp (List.mem_dedup.mp hx) with ⟨r, hr, rfl⟩
    exact hall r hr
  unfold pli_line_length
  cases hd : (records.map RecordSpec.sum_of_lengths).dedup with
  | nil => rw [hd] at hmem; cases hmem
  | cons x t =>
    cases t with
    | nil =>
      simp only
      exact hallm x (hd ▸ List.mem_cons_self x [])
    | cons y t2 =>
      simp only
      apply Nat.le_antisymm
      · exact foldl_max_le _ _ (fun z hz => le_of_eq (hallm z (hd ▸ hz)))
      · exact le_foldl_max _ _ (hd ▸ hmem)

theorem pli_line_length_max (records : List RecordSpec)
    (hdist : ∃ r1 ∈ records, ∃ r2 ∈ records, r1.sum_of_lengths ≠ r2.sum_of_lengths) :
    pli_line_length records = (records.map RecordSpec.sum_of_lengths).foldl Nat.max 0 := by
  obtain ⟨r1, h1, r2, h2, hne12⟩ := hdist
  have hm1 : r1.sum_of_lengths ∈ (records.map RecordSpec.sum_of_lengths).dedup :=
    List.mem_dedup.mpr (List.mem_map.mpr ⟨r1, h1, rfl⟩)
  have hm2 : r2.sum_of_lengths ∈ (records.map RecordSpec.sum_of_lengths).dedup :=
    List.mem_dedup.mpr (List.mem_map.mpr ⟨r2, h2, rfl⟩)
  unfold pli_line_length
  cases hd : (records.map RecordSpec.sum_of_lengths).dedup with
  | nil => rw [hd] at hm1; cases hm1
  | cons x t =>
    cases t with
    | nil =>
      rw [hd] at hm1 hm2
      simp only [List.mem_singleton] at hm1 hm2
      exact absurd (hm1.trans hm2.symm) hne12
    | cons y t2 =>
      simp only
      rw [← hd, foldl_max_dedup]

/-- C10: a contract built by the PL/I extraction has line_length equal to the
common sum_of_lengths when all selected records agree on it, and to the
maximum sum_of_lengths otherwise; and with strict requested (the default),
construction returns no contract whenever the selected records carry two or
more distinct sum_of_lengths values. -/
theorem pli_line_length_strict (records : List RecordSpec) (sp : String) (strict : Bool) :
    (∀ c s, extract_contract_from_pli_records records sp strict = some c →
       (∀ r ∈ records, r.sum_of_lengths = s) → c.line_length = s) ∧
    (∀ c, extract_contract_from_pli_records records sp strict = some c →
       (∃ r1 ∈ records, ∃ r2 ∈ records, r1.sum_of_lengths ≠ r2.sum_of_lengths) →
       c.line_length = (records.map RecordSpec.sum_of_lengths).foldl Nat.max 0) ∧
    ((∃ r1 ∈ records, ∃ r2 ∈ records, r1.sum_of_lengths ≠ r2.sum_of_lengths) →
       extract_contract_from_pli_records records sp true = none) := by
  have hempf : ∀ (st : Bool) c, extract_contract_from_pli_records records sp st = some c →
      records ≠ [] ∧ c.line_length = pli_line_length records := by
    intro st c hc
    unfold extract_contract_from_pli_records at hc
    by_cases hemp : records.isEmpty = true
    · rw [if_pos hemp] at hc
      cases hc
    · rw [if_neg hemp] at hc
      obtain ⟨_, hL, _, _, _, _, _⟩ := mkContractSpec_some_eq _ _ _ _ _ _ _ c hc
      refine ⟨?_, hL⟩
      intro h
      subst h
      exact hemp rfl
  refine ⟨?_, ?_, ?_⟩
  · intro c s hc hall
    obtain ⟨hne, hL⟩ := hempf strict c hc
    rw [hL]
    exact pli_line_length_const records s hne hall
  · intro c hc hdist
    obtain ⟨hne, hL⟩ := hempf strict c hc
    rw [hL]
    exact pli_line_length_max records hdist
  · intro hdist
    have hne : records ≠ [] := by
      rcases hdist with ⟨r1, h1, _⟩
      intro h
      subst h
      cases h1
    unfold extract_contract_from_pli_records
    rw [if_neg (by simp [hne])]
    apply mkContractSpec_none_of_invalid
    rcases hdist with ⟨r1, h1, r2, h2, hne12⟩
    cases hv : validate_record_ranges true (pli_line_length records) records
    · rfl
    · by_cases e1 : r1.sum_of_lengths = pli_line_length records
      · have e2 : r2.sum_of_lengths ≠ pli_line_length records := by
          intro h
          exact hne12 (e1.trans h.symm)
        exact absurd (((validate_record_ranges_iff _ _ _).mp hv r2 h2).2 rfl) e2
      · exact absurd (((validate_record_ranges_iff _ _ _).mp hv r1 h1).2 rfl) e1

/-- Witness of C10: two selected records with sums three and five make the
strict PL/I extraction raise (no contract). -/
theorem pli_line_length_strict_witness :
    extract_contract_from_pli_records [recShort, recLong] "IDP470RA" true = none := by
  exact (pli_line_length_strict [recShort, recLong] "IDP470RA" true).2.2
    ⟨recShort, by decide, recLong, by decide, by decide⟩

end IDP470

